import Mathlib

/-!
Verification of the slot-to-question selection engine in endsem.py.

The Python source is shallowly embedded: question records, template slots,
the per-set selector with its uniqueness filter and repetition fallback,
the template/bank parsers (regex searches are embedded as explicit
character-list scanners over ASCII text, matching the Python patterns
BLOOM_RE, CO_RE, UNIT_RE and NUM_PREFIX_RE), and the document assembler.
Randomness (random.choice) is embedded as an oracle: every call consumes
one natural number k from a supplied stream and picks index k mod length,
so theorems quantify over all possible draws.  DOCX cells are modelled by
their text content; a table row is a list of cell texts.
-/

namespace Endsem

/-- A parsed question-bank row, as built by extract_questions_from_bank_docx:
sequential id, optional unit and CO numbers, the K (Bloom) level, the
largest-text cell (text plus image blob handles) and its image blobs. -/
structure Question where
  id : Nat
  unit : Option Nat
  co : Option Nat
  bloom : Nat
  cell : String × List Nat
  images : List Nat
deriving DecidableEq

/-- A parsed template slot, as built by parse_template_slots.  OR-marker
cells carry slot_num = none and is_or = true; numbered cells carry the
numeric prefix and the unit number found in the cell text (if any). -/
structure Slot where
  table_index : Nat
  row_index : Nat
  cell_index : Nat
  slot_num : Option Nat
  is_or : Bool
  unit_in_template : Option Nat
deriving DecidableEq

abbrev Coord := Nat × Nat × Nat

/-- Coordinate key used for the selected-question dictionary. -/
def coordOf (s : Slot) : Coord := (s.table_index, s.row_index, s.cell_index)

/-- Lookup in the insertion-ordered association list modelling the Python
dict selected. -/
def dlookup (m : List (Coord × Question)) (c : Coord) : Option Question :=
  (m.find? (fun p => decide (p.1 = c))).map (fun p => p.2)

/-- Assignment selected[c] = q with Python dict semantics: overwrite in
place when the key is present, append otherwise. -/
def dinsert (m : List (Coord × Question)) (c : Coord) (q : Question) :
    List (Coord × Question) :=
  if (dlookup m c).isSome then
    m.map (fun p => if p.1 = c then (c, q) else p)
  else m ++ [(c, q)]

/-- Lines 125-132 of endsem.py: the per-slot cognitive-level table.  Note
that slot numbers outside the three ranges fall through to the full list
[1, 2, 3, 4, 5, 6]. -/
def allowed_blooms_for_slot_num (slot_num : Nat) : List Nat :=
  if 1 ≤ slot_num ∧ slot_num ≤ 10 then [1, 2, 3]
  else if 11 ≤ slot_num ∧ slot_num ≤ 20 then [4, 5]
  else if 21 ≤ slot_num ∧ slot_num ≤ 22 then [6]
  else [1, 2, 3, 4, 5, 6]

/-- The by_bloom defaultdict of select_questions: questions of a given
Bloom level, in bank order. -/
def by_bloom (questions : List Question) (b : Nat) : List Question :=
  questions.filter (fun q => decide (q.bloom = b))

/-- The by_unit_bloom nested defaultdict of select_questions.  A question
is indexed only when its unit field is truthy (present and nonzero), and a
lookup with a missing or falsy unit key yields the empty list. -/
def by_unit_bloom (questions : List Question) (u : Option Nat) (b : Nat) :
    List Question :=
  match u with
  | none => []
  | some u =>
    if u = 0 then []
    else questions.filter (fun q => decide (q.unit = some u ∧ q.bloom = b))

/-- Pool construction for one slot (lines 192-196 and 219-220): the
unit-and-bloom pools concatenated over the allowed levels, falling back to
the plain bloom pools when that list is empty (Python list or). -/
def poolFor (questions : List Question) (blooms : List Nat)
    (unit : Option Nat) : List Question :=
  let up := blooms.flatMap (fun b => by_unit_bloom questions unit b)
  if up.isEmpty then blooms.flatMap (fun b => by_bloom questions b) else up

/-- Lines 170-183 of endsem.py, the helper get_unique_question.  The draw
random.choice is embedded as index k mod length.  Returns the chosen
question (none only when the pool itself is empty) and the updated
used-id set. -/
def get_unique_question (used : Finset Nat) (pool : List Question)
    (k : Nat) : Option Question × Finset Nat :=
  let available := pool.filter (fun q => decide (q.id ∉ used))
  let chosen : Option Question :=
    if available.isEmpty then
      if pool.isEmpty then none else pool.get? (k % pool.length)
    else available.get? (k % available.length)
  match chosen with
  | some q => (some q, insert q.id used)
  | none => (none, used)

/-- One recorded call of get_unique_question: the used-set at call time,
the pool passed in, and the drawn result.  Ghost data used to state the
uniqueness invariant; it does not influence selection. -/
structure ChoiceEvent where
  usedBefore : Finset Nat
  pool : List Question
  chosen : Option Question
deriving DecidableEq

/-- Mutable state of one select_questions invocation: the selected
dictionary, the used-id set, the remaining random draws, and the ghost
trace of selector calls. -/
structure SelSt where
  selected : List (Coord × Question)
  used : Finset Nat
  rng : List Nat
  trace : List ChoiceEvent
deriving DecidableEq

/-- Run get_unique_question inside the selection state, consuming one
random draw and recording the call in the ghost trace. -/
def guqStep (pool : List Question) (st : SelSt) : Option Question × SelSt :=
  let k := st.rng.headD 0
  let r := get_unique_question st.used pool k
  (r.1, { selected := st.selected, used := r.2, rng := st.rng.tail,
          trace := st.trace ++ [⟨st.used, pool, r.1⟩] })

/-- Pool for the left member of an OR pair (lines 187-193): levels from
the left slot number, unit taken from the left slot. -/
def pairPoolL (questions : List Question) (p : Slot × Slot) : List Question :=
  poolFor questions (allowed_blooms_for_slot_num (p.1.slot_num.getD 0))
    p.1.unit_in_template

/-- Pool for the right member of an OR pair (lines 188-196): levels from
the right slot number, but the unit still taken from the left slot, as in
the source. -/
def pairPoolR (questions : List Question) (p : Slot × Slot) : List Question :=
  poolFor questions (allowed_blooms_for_slot_num (p.2.slot_num.getD 0))
    p.1.unit_in_template

/-- Lines 186-206: process one OR pair, drawing the left then the right
question and storing each under its slot coordinate when present. -/
def orPairStep (questions : List Question) (st : SelSt) (p : Slot × Slot) :
    SelSt :=
  let r1 := guqStep (pairPoolL questions p) st
  let st1 :=
    match r1.1 with
    | some q =>
      { r1.2 with selected := dinsert r1.2.selected (coordOf p.1) q }
    | none => r1.2
  let r2 := guqStep (pairPoolR questions p) st1
  match r2.1 with
  | some q =>
    { r2.2 with selected := dinsert r2.2.selected (coordOf p.2) q }
  | none => r2.2

/-- Pool for a standalone entry (lines 216-220): levels from the slot
number, unit from the slot. -/
def entryPool (questions : List Question) (e : Slot) : List Question :=
  poolFor questions (allowed_blooms_for_slot_num (e.slot_num.getD 0))
    e.unit_in_template

/-- Lines 209-224: process one standalone entry, skipping coordinates
already filled by an OR pair. -/
def entryStep (questions : List Question) (st : SelSt) (e : Slot) : SelSt :=
  if (dlookup st.selected (coordOf e)).isSome then st
  else
    let r := guqStep (entryPool questions e) st
    match r.1 with
    | some q => { r.2 with selected := dinsert r.2.selected (coordOf e) q }
    | none => r.2

/-- Full state after one select_questions invocation: OR pairs first,
then standalone entries, starting from an empty dictionary and used-set. -/
def select_questionsSt (entries : List Slot) (or_pairs : List (Slot × Slot))
    (questions : List Question) (rng : List Nat) : SelSt :=
  let st1 := or_pairs.foldl (orPairStep questions) ⟨[], ∅, rng, []⟩
  entries.foldl (entryStep questions) st1

/-- Lines 157-226: select_questions returns the selected dictionary and
the set of used question ids. -/
def select_questions (entries : List Slot) (or_pairs : List (Slot × Slot))
    (questions : List Question) (rng : List Nat) :
    List (Coord × Question) × Finset Nat :=
  let st := select_questionsSt entries or_pairs questions rng
  (st.selected, st.used)

/-- ASCII whitespace, matching both Python str.strip and the regex class
backslash-s on the ASCII inputs the parsers see. -/
def isPySpace (c : Char) : Bool :=
  c == ' ' || c == '\t' || c == '\n' || c == '\r' ||
    c == Char.ofNat 11 || c == Char.ofNat 12

/-- Python str.strip on the character list of a string. -/
def stripChars (l : List Char) : List Char :=
  ((l.dropWhile isPySpace).reverse.dropWhile isPySpace).reverse

/-- Python str.strip. -/
def pstrip (s : String) : String := ⟨stripChars s.data⟩

/-- Python str.upper (ASCII). -/
def upperStr (s : String) : String := ⟨s.data.map Char.toUpper⟩

/-- Case-insensitive match of one character against a lowercase letter. -/
def ciIs (c : Char) (lower : Char) : Bool := c.toLower == lower

/-- Numeric value of a digit run, as Python int() of the matched group. -/
def natOfDigits (ds : List Char) : Nat :=
  ds.foldl (fun a c => a * 10 + (c.toNat - 48)) 0

/-- Generic re.search: try a position matcher at each suffix, leftmost
match wins. -/
def searchWith (f : List Char → Option Nat) : List Char → Option Nat
  | [] => none
  | c :: rest =>
    match f (c :: rest) with
    | some n => some n
    | none => searchWith f rest

/-- BLOOM_RE at one position: K (either case), optional whitespace, one
digit 1-6. -/
def bloomAt : List Char → Option Nat
  | [] => none
  | c :: rest =>
    if ciIs c 'k' then
      match rest.dropWhile isPySpace with
      | d :: _ =>
        if '1' ≤ d ∧ d ≤ '6' then some (d.toNat - 48) else none
      | [] => none
    else none

/-- CO_RE at one position: CO (either case), optional whitespace, an
optional underscore or colon, optional whitespace, a digit run. -/
def coAt : List Char → Option Nat
  | c1 :: c2 :: rest =>
    if ciIs c1 'c' ∧ ciIs c2 'o' then
      let r1 := rest.dropWhile isPySpace
      let r2 :=
        match r1 with
        | c :: t => if c = '_' ∨ c = ':' then t else r1
        | [] => r1
      let ds := (r2.dropWhile isPySpace).takeWhile Char.isDigit
      if ds.isEmpty then none else some (natOfDigits ds)
    else none
  | _ => none

/-- UNIT_RE at one position: Unit (any case), optional whitespace, an
optional hyphen or colon, optional whitespace, a digit run. -/
def unitAt : List Char → Option Nat
  | c1 :: c2 :: c3 :: c4 :: rest =>
    if ciIs c1 'u' ∧ ciIs c2 'n' ∧ ciIs c3 'i' ∧ ciIs c4 't' then
      let r1 := rest.dropWhile isPySpace
      let r2 :=
        match r1 with
        | c :: t => if c = '-' ∨ c = ':' then t else r1
        | [] => r1
      let ds := (r2.dropWhile isPySpace).takeWhile Char.isDigit
      if ds.isEmpty then none else some (natOfDigits ds)
    else none
  | _ => none

/-- BLOOM_RE.search. -/
def bloomSearch (l : List Char) : Option Nat := searchWith bloomAt l

/-- CO_RE.search. -/
def coSearch (l : List Char) : Option Nat := searchWith coAt l

/-- UNIT_RE.search. -/
def unitSearch (l : List Char) : Option Nat := searchWith unitAt l

/-- NUM_PREFIX_RE.match on already-stripped text: optional whitespace, a
digit run, optional whitespace, then a period or closing parenthesis. -/
def numPrefixOf (l : List Char) : Option Nat :=
  let l1 := l.dropWhile isPySpace
  let ds := l1.takeWhile Char.isDigit
  let rest := l1.dropWhile Char.isDigit
  if ds.isEmpty then none
  else
    match rest.dropWhile isPySpace with
    | c :: _ => if c = '.' ∨ c = ')' then some (natOfDigits ds) else none
    | [] => none

/-- Line 99 of endsem.py: a stripped cell text is an OR marker exactly
when its uppercasing is one of the three listed forms. -/
def orMarker (t : String) : Bool :=
  decide (upperStr t = "OR" ∨ upperStr t = "(OR)" ∨ upperStr t = "( OR )")

/-- A template document: tables of rows of cell texts. -/
abbrev TemplateDoc := List (List (List String))

/-- Optional cell text at a (table, row, cell) coordinate. -/
def cellAt? (doc : TemplateDoc) (ti ri ci : Nat) : Option String :=
  (doc.get? ti).bind (fun t => (t.get? ri).bind (fun r => r.get? ci))

/-- Lines 94-119 of endsem.py: classify one template cell.  Empty cells
yield nothing, OR markers yield an is_or slot, numeric prefixes yield a
numbered slot carrying the unit mentioned in the cell text. -/
def parseCell (ti ri ci : Nat) (cellText : String) : Option Slot :=
  let txt := pstrip cellText
  if txt = "" then none
  else if orMarker txt then
    some { table_index := ti, row_index := ri, cell_index := ci,
           slot_num := none, is_or := true, unit_in_template := none }
  else
    match numPrefixOf txt.data with
    | some n =>
      some { table_index := ti, row_index := ri, cell_index := ci,
             slot_num := some n, is_or := false,
             unit_in_template := unitSearch txt.data }
    | none => none

/-- Lines 88-120: walk every table, row and cell of the template in
order, collecting slots. -/
def parse_template_slots (doc : TemplateDoc) : List Slot :=
  doc.enum.flatMap (fun tp =>
    tp.2.enum.flatMap (fun rp =>
      rp.2.enum.filterMap (fun cp => parseCell tp.1 rp.1 cp.1 cp.2)))

/-- Python truthiness of s.get with the slot_num key: present and
nonzero. -/
def slotNumTruthy (s : Slot) : Bool :=
  match s.slot_num with
  | some n => decide (n ≠ 0)
  | none => false

/-- Lines 134-135: keep the truthy-numbered slots, sorted stably by slot
number (Python sorted). -/
def map_slots (slots : List Slot) : List Slot :=
  (slots.filter slotNumTruthy).insertionSort
    (fun a b => a.slot_num.getD 0 ≤ b.slot_num.getD 0)

/-- Lines 142-145: scan indices i-1 down to 0 for the nearest preceding
truthy-numbered slot. -/
def findPrev (slots : List Slot) : Nat → Option Slot
  | 0 => none
  | j + 1 =>
    match slots.get? j with
    | some s => if slotNumTruthy s then some s else findPrev slots j
    | none => findPrev slots j

/-- Lines 137-152: for every OR-marker slot, pair the nearest preceding
and the nearest following truthy-numbered slots, keeping the pair only
when both exist. -/
def find_or_pairs (slots : List Slot) : List (Slot × Slot) :=
  (List.range slots.length).filterMap (fun i =>
    match slots.get? i with
    | some s =>
      if s.is_or then
        match findPrev slots i, (slots.drop (i + 1)).find? slotNumTruthy with
        | some l, some r => some (l, r)
        | _, _ => none
      else none
    | none => none)

/-- One cell of the question bank: its text and its image blob handles. -/
abbrev BankCell := String × List Nat

/-- The empty bank cell, used as an out-of-range default. -/
def emptyBankCell : BankCell := ⟨ "", [] ⟩

/-- Line 70 of endsem.py: index of the first cell of largest unstripped
text length (Python max over range with a key returns the first
maximum). -/
def argmaxLen (ts : List String) : Nat :=
  match ts with
  | [] => 0
  | t :: _ =>
    (ts.enum.foldl
      (fun acc p => if p.2.length > acc.2 then (p.1, p.2.length) else acc)
      (0, t.length)).1

/-- Stripped cell texts of one bank row (line 58). -/
def rowTexts (cells : List BankCell) : List String :=
  cells.map (fun c => pstrip c.1)

/-- The joined row text searched by the regexes (line 62). -/
def rowJoined (cells : List BankCell) : String :=
  String.intercalate " " (rowTexts cells)

/-- The largest-text cell of one bank row (lines 70-71). -/
def rowMainCell (cells : List BankCell) : BankCell :=
  cells.getD (argmaxLen (cells.map (fun c => c.1))) emptyBankCell

/-- Lines 56-81 of endsem.py: walk bank rows in order; skip rows whose
stripped cell texts are all empty; skip rows whose joined text has no
K-level match; otherwise emit a question with the next sequential id,
unit and CO parsed from the joined text, and the largest cell as body. -/
def extractRows (rows : List (List BankCell)) (qid : Nat) : List Question :=
  match rows with
  | [] => []
  | row :: rest =>
    if (rowTexts row).all (fun t => decide (t = "")) then extractRows rest qid
    else
      match bloomSearch (rowJoined row).data with
      | none => extractRows rest qid
      | some b =>
        { id := qid + 1,
          unit := unitSearch (rowJoined row).data,
          co := coSearch (rowJoined row).data,
          bloom := b,
          cell := rowMainCell row,
          images := (rowMainCell row).2 } :: extractRows rest (qid + 1)

/-- Lines 51-83: extract_questions_from_bank_docx over all tables, with
the question id counter threaded across tables. -/
def extract_questions_from_bank (tables : List (List (List BankCell))) :
    List Question :=
  extractRows tables.flatten 0

/-- The f-string rendering of a stored optional number; Python prints the
stored None as the text None (the co key is always present in the
question dict, so the get default never applies). -/
def pyShow : Option Nat → String
  | some n => toString n
  | none => "None"

/-- Content written into the CO cell at line 266. -/
def coCellText (q : Question) : String := "CO" ++ pyShow q.co

/-- Content written into the K cell at line 267. -/
def kCellText (q : Question) : String := "K" ++ toString q.bloom

/-- Lines 236-267 for one selected question: rows with fewer than 4 cells
are skipped entirely; otherwise cell 1 receives the question body (the
bank cell content, images re-attached), cell 2 the CO text and cell 3 the
K text. -/
def fillRow (row : List String) (q : Question) : List String :=
  if row.length < 4 then row
  else ((row.set 1 q.cell.1).set 2 (coCellText q)).set 3 (kCellText q)

/-- Replace the element at one index, leaving the list unchanged when the
index is out of range (in the source an out-of-range table or row index
would raise instead; the claims only exercise in-range coordinates). -/
def modAt {α : Type} : List α → Nat → (α → α) → List α
  | [], _, _ => []
  | x :: xs, 0, f => f x :: xs
  | x :: xs, Nat.succ n, f => x :: modAt xs n f

/-- Apply one selected question to the document. -/
def assembleStep (doc : TemplateDoc) (p : Coord × Question) : TemplateDoc :=
  modAt doc p.1.1 (fun table => modAt table p.1.2.1 (fun row => fillRow row p.2))

/-- Lines 231-272: assemble_doc walks the selected dictionary in
insertion order and writes each question into its template row. -/
def assemble_doc (doc : TemplateDoc) (selected : List (Coord × Question)) :
    TemplateDoc :=
  selected.foldl assembleStep doc

/-- Row of a document at a (table, row) coordinate, defaulting to the
empty row out of range. -/
def rowAt (doc : TemplateDoc) (ti ri : Nat) : List String :=
  (doc.getD ti []).getD ri []

/-- The per-call selection contract: when the pool still holds an unused
question, the draw is an unused pool member; when the pool is nonempty,
the draw always succeeds with a pool member (repetition instead of
failure). -/
def eventOK (ev : ChoiceEvent) : Prop :=
  ((∃ q ∈ ev.pool, q.id ∉ ev.usedBefore) →
    ∃ q, ev.chosen = some q ∧ q ∈ ev.pool ∧ q.id ∉ ev.usedBefore) ∧
  (ev.pool ≠ [] → ∃ q ∈ ev.pool, ev.chosen = some q)

/-- Number of distinct question ids in a pool. -/
def poolIdsCard (pool : List Question) : Nat :=
  ((pool.map (fun q => q.id)).toFinset).card

/-- The tag matcher as the specification describes it: slots 1-10 map to
levels 1-3, slots 11-20 to levels 4-5, slots 21-22 to level 6, and any
other slot number has no mapping (none).  Written from the claim text for
comparison with allowed_blooms_for_slot_num. -/
def allowed_blooms_claim (slot_num : Nat) : Option (List Nat) :=
  if 1 ≤ slot_num ∧ slot_num ≤ 10 then some [1, 2, 3]
  else if 11 ≤ slot_num ∧ slot_num ≤ 20 then some [4, 5]
  else if 21 ≤ slot_num ∧ slot_num ≤ 22 then some [6]
  else none

/-- The claimed question-row test: some adjacent character pair is a unit
digit 1-5 followed by a part letter A, B or C.  Written from the claim
text (pattern unit 1-5 then part A/B/C) for comparison with the row test
the code actually performs. -/
def claim_tag_pair : List Char → Bool
  | d :: p :: rest =>
    (('1' ≤ d ∧ d ≤ '5') ∧
      (p.toUpper = 'A' ∨ p.toUpper = 'B' ∨ p.toUpper = 'C') : Bool)
      || claim_tag_pair (p :: rest)
  | _ => false

/-- The claimed question-row predicate over the texts of one bank row. -/
def claim_is_question_row (texts : List String) : Bool :=
  texts.any (fun t => claim_tag_pair t.data)

/-- Sample question with id 1, unit 1, CO 1, level 1. -/
def qA : Question := ⟨1, some 1, some 1, 1, ⟨ "Alpha", [] ⟩, []⟩

/-- Sample question with id 2, unit 1, CO 2, level 1. -/
def qB : Question := ⟨2, some 1, some 2, 1, ⟨ "Beta", [] ⟩, []⟩

/-- Sample numbered slot 1 at coordinate (0, 0, 0) requiring unit 1. -/
def slotA : Slot := ⟨0, 0, 0, some 1, false, some 1⟩

/-- Sample numbered slot 2 at coordinate (0, 1, 0) requiring unit 1. -/
def slotB : Slot := ⟨0, 1, 0, some 2, false, some 1⟩

/-- Sample OR-marker slot between slotA and slotB. -/
def orSlotEx : Slot := ⟨0, 0, 1, none, true, none⟩

/-- Sample template document with two four-cell slot rows. -/
def docEx : TemplateDoc :=
  [[[ "1.", "", "", "" ], [ "2.", "", "", "" ]]]

/-- Sample template document whose first row has only three cells. -/
def docShort : TemplateDoc :=
  [[[ "1.", "x", "y" ], [ "2.", "", "", "" ]]]

/-- Sample template document holding a single OR-marker cell. -/
def docOrEx : TemplateDoc := [[[ " ( or ) " ]]]

/-- Sample bank row: a K-level cell and a long question-body cell. -/
def bankRowEx : List BankCell :=
  [⟨ "K3", [] ⟩, ⟨ "What is computability? CO2 Unit 4", [] ⟩]

/-! Dictionary lemmas. -/

theorem dlookup_cons (p : Coord × Question) (m : List (Coord × Question))
    (c : Coord) :
    dlookup (p :: m) c = if p.1 = c then some p.2 else dlookup m c := by
  by_cases h : p.1 = c <;> simp [dlookup, List.find?, h]

theorem dlookup_append_of_none {m1 : List (Coord × Question)} {c : Coord}
    (m2 : List (Coord × Question)) (h : dlookup m1 c = none) :
    dlookup (m1 ++ m2) c = dlookup m2 c := by
  induction m1 with
  | nil => rfl
  | cons p t ih =>
    rw [dlookup_cons] at h
    by_cases hp : p.1 = c
    · simp [hp] at h
    · rw [List.cons_append, dlookup_cons, if_neg hp]
      exact ih (by simpa [hp] using h)

theorem dlookup_append_of_some {m1 : List (Coord × Question)} {c : Coord}
    {q : Question} (m2 : List (Coord × Question)) (h : dlookup m1 c = some q) :
    dlookup (m1 ++ m2) c = some q := by
  induction m1 with
  | nil => simp [dlookup] at h
  | cons p t ih =>
    rw [dlookup_cons] at h
    by_cases hp : p.1 = c
    · rw [List.cons_append, dlookup_cons, if_pos hp]
      simpa [hp] using h
    · rw [List.cons_append, dlookup_cons, if_neg hp]
      exact ih (by simpa [hp] using h)

theorem dinsert_of_lookup_none {m : List (Coord × Question)} {c : Coord}
    (q : Question) (h : dlookup m c = none) : dinsert m c q = m ++ [(c, q)] := by
  simp [dinsert, h]

theorem dlookup_map_update_self {m : List (Coord × Question)} {c : Coord}
    (q : Question) {q0 : Question} (h : dlookup m c = some q0) :
    dlookup (m.map (fun p => if p.1 = c then (c, q) else p)) c = some q := by
  induction m with
  | nil => simp [dlookup] at h
  | cons p t ih =>
    rw [dlookup_cons] at h
    by_cases hp : p.1 = c
    · simp [List.map_cons, if_pos hp, dlookup_cons]
    · rw [List.map_cons, if_neg hp, dlookup_cons, if_neg hp]
      exact ih (by simpa [hp] using h)

theorem dlookup_map_update_ne (m : List (Coord × Question)) {c c' : Coord}
    (q : Question) (h : c' ≠ c) :
    dlookup (m.map (fun p => if p.1 = c then (c, q) else p)) c' = dlookup m c' := by
  induction m with
  | nil => rfl
  | cons p t ih =>
    by_cases hp : p.1 = c
    · rw [List.map_cons, if_pos hp, dlookup_cons, dlookup_cons]
      have h1 : ¬ ((c, q).1 = c') := fun hc => h hc.symm
      rw [if_neg h1, if_neg (by rw [hp]; exact fun hc => h hc.symm)]
      exact ih
    · rw [List.map_cons, if_neg hp, dlookup_cons, dlookup_cons]
      by_cases hp' : p.1 = c'
      · rw [if_pos hp', if_pos hp']
      · rw [if_neg hp', if_neg hp']
        exact ih

theorem dlookup_dinsert_self (m : List (Coord × Question)) (c : Coord)
    (q : Question) : dlookup (dinsert m c q) c = some q := by
  unfold dinsert
  by_cases h : (dlookup m c).isSome
  · rw [if_pos h]
    obtain ⟨q0, hq0⟩ := Option.isSome_iff_exists.mp h
    exact dlookup_map_update_self q hq0
  · rw [if_neg h]
    have hn : dlookup m c = none := by
      cases hh : dlookup m c
      · rfl
      · rw [hh] at h; simp at h
    rw [dlookup_append_of_none _ hn, dlookup_cons]
    simp

theorem dlookup_dinsert_ne (m : List (Coord × Question)) {c c' : Coord}
    (q : Question) (h : c' ≠ c) : dlookup (dinsert m c q) c' = dlookup m c' := by
  unfold dinsert
  by_cases hs : (dlookup m c).isSome
  · rw [if_pos hs]
    exact dlookup_map_update_ne m q h
  · rw [if_neg hs]
    cases hh : dlookup m c'
    · rw [dlookup_append_of_none _ hh, dlookup_cons]
      simp only [if_neg (fun hc : (c, q).1 = c' => h hc.symm)]
      rfl
    · exact dlookup_append_of_some _ hh

/-! Selector (get_unique_question) lemmas. -/

theorem mem_filter_unused {pool : List Question} {used : Finset Nat}
    {q : Question} :
    q ∈ pool.filter (fun q => decide (q.id ∉ used)) ↔ q ∈ pool ∧ q.id ∉ used := by
  simp [List.mem_filter]

theorem get?_mod_some {α : Type} (l : List α) (h : l ≠ []) (k : Nat) :
    ∃ x, l.get? (k % l.length) = some x ∧ x ∈ l := by
  have hl : 0 < l.length := List.length_pos.mpr h
  have hk : k % l.length < l.length := Nat.mod_lt _ hl
  refine ⟨l.get ⟨k % l.length, hk⟩, ?_, List.get_mem _ _ hk⟩
  exact List.get?_eq_get hk

theorem guq_spec_unused (used : Finset Nat) (pool : List Question) (k : Nat)
    (hex : ∃ q ∈ pool, q.id ∉ used) :
    ∃ q, q ∈ pool ∧ q.id ∉ used ∧
      get_unique_question used pool k = (some q, insert q.id used) := by
  obtain ⟨q0, hq0, hu0⟩ := hex
  have hav : pool.filter (fun q => decide (q.id ∉ used)) ≠ [] :=
    List.ne_nil_of_mem (mem_filter_unused.mpr ⟨hq0, hu0⟩)
  obtain ⟨q, hget, hqmem⟩ :=
    get?_mod_some (pool.filter (fun q => decide (q.id ∉ used))) hav k
  obtain ⟨hqp, hqu⟩ := mem_filter_unused.mp hqmem
  refine ⟨q, hqp, hqu, ?_⟩
  unfold get_unique_question
  have hne : (pool.filter (fun q => decide (q.id ∉ used))).isEmpty = false := by
    simpa [List.isEmpty_iff] using hav
  simp only [hne, Bool.false_eq_true, if_false, hget]

theorem guq_spec_exhausted (used : Finset Nat) (pool : List Question) (k : Nat)
    (hp : pool ≠ []) (hall : ∀ q ∈ pool, q.id ∈ used) :
    ∃ q, pool.get? (k % pool.length) = some q ∧ q ∈ pool ∧
      get_unique_question used pool k = (some q, insert q.id used) := by
  have hav : pool.filter (fun q => decide (q.id ∉ used)) = [] := by
    rw [List.filter_eq_nil_iff]
    intro q hq
    simpa using hall q hq
  obtain ⟨q, hget, hmem⟩ := get?_mod_some pool hp k
  refine ⟨q, hget, hmem, ?_⟩
  unfold get_unique_question
  have hpe : pool.isEmpty = false := by simpa [List.isEmpty_iff] using hp
  simp only [hav, List.isEmpty_nil, if_true, hpe, Bool.false_eq_true, if_false,
    hget]

theorem guq_nil (used : Finset Nat) (k : Nat) :
    get_unique_question used [] k = (none, used) := rfl

theorem guq_fst_some {used : Finset Nat} {pool : List Question} {k : Nat}
    {q : Question} (h : (get_unique_question used pool k).1 = some q) :
    q ∈ pool ∧ (get_unique_question used pool k).2 = insert q.id used := by
  by_cases hp : pool = []
  · subst hp; rw [guq_nil] at h; simp at h
  · by_cases hex : ∃ q' ∈ pool, q'.id ∉ used
    · obtain ⟨q', hq', hu', heq⟩ := guq_spec_unused used pool k hex
      rw [heq] at h ⊢
      simp only [Option.some.injEq] at h
      exact ⟨h ▸ hq', by rw [h]⟩
    · push_neg at hex
      obtain ⟨q', _, hq', heq⟩ := guq_spec_exhausted used pool k hp hex
      rw [heq] at h ⊢
      simp only [Option.some.injEq] at h
      exact ⟨h ▸ hq', by rw [h]⟩

theorem guq_some_of_ne_nil (used : Finset Nat) (pool : List Question) (k : Nat)
    (hp : pool ≠ []) :
    ∃ q ∈ pool, (get_unique_question used pool k).1 = some q := by
  by_cases hex : ∃ q' ∈ pool, q'.id ∉ used
  · obtain ⟨q', hq', _, heq⟩ := guq_spec_unused used pool k hex
    exact ⟨q', hq', by rw [heq]⟩
  · push_neg at hex
    obtain ⟨q', _, hq', heq⟩ := guq_spec_exhausted used pool k hp hex
    exact ⟨q', hq', by rw [heq]⟩

theorem exists_unused_of_card {pool : List Question} {used : Finset Nat}
    (h : used.card < poolIdsCard pool) : ∃ q ∈ pool, q.id ∉ used := by
  by_contra hc
  push_neg at hc
  have hsub : (pool.map (fun q => q.id)).toFinset ⊆ used := by
    intro x hx
    simp only [List.mem_toFinset, List.mem_map] at hx
    obtain ⟨q, hq, rfl⟩ := hx
    exact hc q hq
  exact absurd (Finset.card_le_card hsub) (by unfold poolIdsCard at h; omega)

/-! Assembler lemmas. -/

theorem modAt_of_ge {α : Type} (l : List α) {n : Nat} (f : α → α)
    (h : l.length ≤ n) : modAt l n f = l := by
  induction l generalizing n with
  | nil => rfl
  | cons x xs ih =>
    cases n with
    | zero => simp at h
    | succ m =>
      simp only [modAt]
      rw [ih (by simpa using h)]

theorem modAt_getD_ne {α : Type} {n m : Nat} (l : List α) (f : α → α) (d : α)
    (h : n ≠ m) : (modAt l n f).getD m d = l.getD m d := by
  induction l generalizing n m with
  | nil => rfl
  | cons x xs ih =>
    cases n with
    | zero =>
      cases m with
      | zero => exact absurd rfl h
      | succ m' => simp [modAt, List.getD_cons_succ]
    | succ n' =>
      cases m with
      | zero => simp [modAt, List.getD_cons_zero]
      | succ m' =>
        simp only [modAt, List.getD_cons_succ]
        exact ih (fun hc => h (by rw [hc]))

theorem modAt_getD_self {α : Type} {n : Nat} (l : List α) (f : α → α) (d : α) :
    (modAt l n f).getD n d =
      if n < l.length then f (l.getD n d) else l.getD n d := by
  induction l generalizing n with
  | nil => simp [modAt]
  | cons x xs ih =>
    cases n with
    | zero => simp [modAt, List.getD_cons_zero]
    | succ n' =>
      simp only [modAt, List.getD_cons_succ, List.length_cons,
        Nat.succ_lt_succ_iff]
      exact ih

theorem fillRow_nil (q : Question) : fillRow [] q = [] := rfl

theorem fillRow_of_short {row : List String} (q : Question)
    (h : row.length < 4) : fillRow row q = row := by
  unfold fillRow
  rw [if_pos h]

theorem fillRow_of_long {row : List String} (q : Question)
    (h : 4 ≤ row.length) : fillRow row q =
      ((row.set 1 q.cell.1).set 2 (coCellText q)).set 3 (kCellText q) := by
  unfold fillRow
  rw [if_neg (by omega)]

theorem rowAt_assembleStep (doc : TemplateDoc) (p : Coord × Question)
    (ti ri : Nat) :
    rowAt (assembleStep doc p) ti ri =
      if p.1.1 = ti ∧ p.1.2.1 = ri then fillRow (rowAt doc ti ri) p.2
      else rowAt doc ti ri := by
  unfold assembleStep rowAt
  by_cases h1 : p.1.1 = ti
  · subst h1
    rw [modAt_getD_self]
    by_cases hlt : p.1.1 < doc.length
    · rw [if_pos hlt]
      by_cases h2 : p.1.2.1 = ri
      · subst h2
        rw [modAt_getD_self]
        by_cases hlt2 : p.1.2.1 < (doc.getD p.1.1 []).length
        · rw [if_pos hlt2, if_pos ⟨rfl, rfl⟩]
        · rw [if_neg hlt2, if_pos ⟨rfl, rfl⟩]
          rw [List.getD_eq_default _ _ (by omega), fillRow_nil]
      · rw [modAt_getD_ne _ _ _ h2, if_neg (fun hc => h2 hc.2)]
    · rw [if_neg hlt]
      have hd : doc.getD p.1.1 [] = [] :=
        List.getD_eq_default _ _ (by omega)
      rw [hd]
      by_cases h2 : p.1.2.1 = ri
      · rw [if_pos ⟨rfl, h2⟩]
        simp [fillRow_nil]
      · rw [if_neg (fun hc => h2 hc.2)]
  · rw [modAt_getD_ne _ _ _ h1, if_neg (fun hc => h1 hc.1)]

theorem rowAt_assemble (sel : List (Coord × Question)) (doc : TemplateDoc)
    (ti ri : Nat) :
    rowAt (assemble_doc doc sel) ti ri =
      sel.foldl
        (fun r p => if p.1.1 = ti ∧ p.1.2.1 = ri then fillRow r p.2 else r)
        (rowAt doc ti ri) := by
  induction sel generalizing doc with
  | nil => rfl
  | cons p t ih =>
    show rowAt (assemble_doc (assembleStep doc p) t) ti ri = _
    rw [ih (assembleStep doc p), rowAt_assembleStep]
    rfl

theorem foldl_filter_prop {α β : Type} (C : β → Prop) [DecidablePred C]
    (g : α → β → α) (l : List β) (a : α) :
    l.foldl (fun r p => if C p then g r p else r) a =
      (l.filter (fun p => decide (C p))).foldl g a := by
  induction l generalizing a with
  | nil => rfl
  | cons p t ih =>
    by_cases hc : C p
    · simp only [List.foldl_cons, if_pos hc, List.filter_cons,
        decide_eq_true hc]
      exact ih (g a p)
    · simp only [List.foldl_cons, if_neg hc, List.filter_cons,
        decide_eq_false hc]
      exact ih a

theorem foldl_fill_of_short {ti ri : Nat} (sel : List (Coord × Question))
    (r : List String) (h : r.length < 4) :
    sel.foldl
      (fun r p => if p.1.1 = ti ∧ p.1.2.1 = ri then fillRow r p.2 else r)
      r = r := by
  induction sel generalizing r with
  | nil => rfl
  | cons p t ih =>
    simp only [List.foldl_cons]
    by_cases hc : p.1.1 = ti ∧ p.1.2.1 = ri
    · rw [if_pos hc, fillRow_of_short _ h]
      exact ih r h
    · rw [if_neg hc]
      exact ih r h

/-! Selection-loop step lemmas. -/

theorem entryStep_some {questions : List Question} {st : SelSt} {e : Slot}
    {q : Question} (h : dlookup st.selected (coordOf e) = none)
    (hg : (get_unique_question st.used (entryPool questions e)
      (st.rng.headD 0)).1 = some q) :
    entryStep questions st e =
      { selected := dinsert st.selected (coordOf e) q,
        used := insert q.id st.used,
        rng := st.rng.tail,
        trace := st.trace ++ [⟨st.used, entryPool questions e, some q⟩] } := by
  have h2 := (guq_fst_some hg).2
  simp only [entryStep, guqStep, h, Option.isSome_none, Bool.false_eq_true,
    if_false, hg, h2]

theorem entryStep_pool_nil {questions : List Question} {st : SelSt} {e : Slot}
    (h : dlookup st.selected (coordOf e) = none)
    (hp : entryPool questions e = []) :
    entryStep questions st e =
      { selected := st.selected, used := st.used, rng := st.rng.tail,
        trace := st.trace ++ [⟨st.used, [], none⟩] } := by
  simp only [entryStep, guqStep, h, Option.isSome_none, Bool.false_eq_true,
    if_false, hp, guq_nil]

theorem entryStep_dlookup_ne {questions : List Question} {st : SelSt}
    {e : Slot} {c : Coord} (hc : c ≠ coordOf e) :
    dlookup (entryStep questions st e).selected c = dlookup st.selected c := by
  unfold entryStep
  by_cases h : (dlookup st.selected (coordOf e)).isSome
  · rw [if_pos h]
  · rw [if_neg h]
    simp only [guqStep]
    cases hg : (get_unique_question st.used (entryPool questions e)
        (st.rng.headD 0)).1 with
    | none => simp only [hg]
    | some q => simp only [hg, dlookup_dinsert_ne _ _ hc]

theorem orPairStep_dlookup_ne {questions : List Question} {st : SelSt}
    {p : Slot × Slot} {c : Coord} (h1 : c ≠ coordOf p.1)
    (h2 : c ≠ coordOf p.2) :
    dlookup (orPairStep questions st p).selected c = dlookup st.selected c := by
  unfold orPairStep
  simp only [guqStep]
  cases hg1 : (get_unique_question st.used (pairPoolL questions p)
      (st.rng.headD 0)).1 with
  | none =>
    simp only [hg1]
    cases hg2 : (get_unique_question
        (get_unique_question st.used (pairPoolL questions p)
          (st.rng.headD 0)).2
        (pairPoolR questions p) (st.rng.tail.headD 0)).1 with
    | none => simp only [hg2]
    | some q2 => simp only [hg2, dlookup_dinsert_ne _ _ h2]
  | some q1 =>
    simp only [hg1]
    cases hg2 : (get_unique_question
        (get_unique_question st.used (pairPoolL questions p)
          (st.rng.headD 0)).2
        (pairPoolR questions p) (st.rng.tail.headD 0)).1 with
    | none => simp only [hg2, dlookup_dinsert_ne _ _ h1]
    | some q2 =>
      simp only [hg2, dlookup_dinsert_ne _ _ h2, dlookup_dinsert_ne _ _ h1]

theorem poolFor_nil_unit {questions : List Question} {blooms : List Nat}
    {u : Option Nat} (h : poolFor questions blooms u = [])
    (u' : Option Nat) : poolFor questions blooms u' = [] := by
  have hfb : blooms.flatMap (fun b => by_bloom questions b) = [] := by
    unfold poolFor at h
    by_cases hup : (blooms.flatMap
        (fun b => by_unit_bloom questions u b)).isEmpty
    · rwa [if_pos hup] at h
    · rw [if_neg hup] at h
      rw [h] at hup
      simp at hup
  have hnob : ∀ b ∈ blooms, ∀ q ∈ questions, ¬ q.bloom = b := by
    intro b hb q hq
    have hbb : by_bloom questions b = [] :=
      List.flatMap_eq_nil_iff.mp hfb b hb
    unfold by_bloom at hbb
    rw [List.filter_eq_nil_iff] at hbb
    intro hc
    exact absurd (by simpa using hc) (by simpa using hbb q hq)
  have hup' : blooms.flatMap (fun b => by_unit_bloom questions u' b) = [] := by
    rw [List.flatMap_eq_nil_iff]
    intro b hb
    unfold by_unit_bloom
    cases u' with
    | none => rfl
    | some v =>
      dsimp only
      by_cases hv : v = 0
      · rw [if_pos hv]
      · rw [if_neg hv, List.filter_eq_nil_iff]
        intro q hq
        simp only [decide_eq_true_eq, not_and]
        intro _ hbq
        exact hnob b hb q hq hbq
  unfold poolFor
  rw [hup', hfb]
  rfl

theorem orPairStep_dlookup_none {questions : List Question} {st : SelSt}
    {p : Slot × Slot} {c : Coord} (h : dlookup st.selected c = none)
    (hL : c = coordOf p.1 → pairPoolL questions p = [])
    (hR : c = coordOf p.2 → pairPoolR questions p = []) :
    dlookup (orPairStep questions st p).selected c = none := by
  unfold orPairStep
  simp only [guqStep]
  cases hg1 : (get_unique_question st.used (pairPoolL questions p)
      (st.rng.headD 0)).1 with
  | none =>
    simp only [hg1]
    cases hg2 : (get_unique_question
        (get_unique_question st.used (pairPoolL questions p)
          (st.rng.headD 0)).2
        (pairPoolR questions p) (st.rng.tail.headD 0)).1 with
    | none => simp only [hg2]; exact h
    | some q2 =>
      have hc2 : c ≠ coordOf p.2 := by
        intro hcc
        rw [hR hcc, guq_nil] at hg2
        simp at hg2
      simp only [hg2]
      rw [dlookup_dinsert_ne _ _ hc2]
      exact h
  | some q1 =>
    have hc1 : c ≠ coordOf p.1 := by
      intro hcc
      rw [hL hcc, guq_nil] at hg1
      simp at hg1
    simp only [hg1]
    cases hg2 : (get_unique_question
        (get_unique_question st.used (pairPoolL questions p)
          (st.rng.headD 0)).2
        (pairPoolR questions p) (st.rng.tail.headD 0)).1 with
    | none =>
      simp only [hg2]
      rw [dlookup_dinsert_ne _ _ hc1]
      exact h
    | some q2 =>
      have hc2 : c ≠ coordOf p.2 := by
        intro hcc
        rw [hR hcc, guq_nil] at hg2
        simp at hg2
      simp only [hg2]
      rw [dlookup_dinsert_ne _ _ hc2, dlookup_dinsert_ne _ _ hc1]
      exact h

theorem guq_event_ok (used : Finset Nat) (pool : List Question) (k : Nat) :
    eventOK ⟨used, pool, (get_unique_question used pool k).1⟩ := by
  constructor
  · intro hex
    obtain ⟨q, hq, hu, heq⟩ := guq_spec_unused used pool k hex
    exact ⟨q, by rw [heq], hq, hu⟩
  · intro hp
    exact guq_some_of_ne_nil used pool k hp

theorem entryStep_trace_extend (questions : List Question) (st : SelSt)
    (e : Slot) :
    ∃ evs, (entryStep questions st e).trace = st.trace ++ evs ∧
      ∀ ev ∈ evs, eventOK ev := by
  unfold entryStep
  by_cases h : (dlookup st.selected (coordOf e)).isSome
  · rw [if_pos h]
    exact ⟨[], by simp, by simp⟩
  · rw [if_neg h]
    simp only [guqStep]
    refine ⟨[⟨st.used, entryPool questions e,
      (get_unique_question st.used (entryPool questions e)
        (st.rng.headD 0)).1⟩], ?_, ?_⟩
    · cases hg : (get_unique_question st.used (entryPool questions e)
          (st.rng.headD 0)).1 with
      | none => simp only [hg]
      | some q => simp only [hg]
    · intro ev hev
      rw [List.mem_singleton] at hev
      subst hev
      exact guq_event_ok _ _ _

theorem orPairStep_trace_extend (questions : List Question) (st : SelSt)
    (p : Slot × Slot) :
    ∃ evs, (orPairStep questions st p).trace = st.trace ++ evs ∧
      ∀ ev ∈ evs, eventOK ev := by
  unfold orPairStep
  simp only [guqStep]
  refine ⟨[⟨st.used, pairPoolL questions p,
      (get_unique_question st.used (pairPoolL questions p)
        (st.rng.headD 0)).1⟩,
    ⟨(get_unique_question st.used (pairPoolL questions p)
        (st.rng.headD 0)).2,
      pairPoolR questions p,
      (get_unique_question
        (get_unique_question st.used (pairPoolL questions p)
          (st.rng.headD 0)).2
        (pairPoolR questions p) (st.rng.tail.headD 0)).1⟩], ?_, ?_⟩
  · cases hg1 : (get_unique_question st.used (pairPoolL questions p)
        (st.rng.headD 0)).1 with
    | none =>
      simp only [hg1]
      cases hg2 : (get_unique_question
          (get_unique_question st.used (pairPoolL questions p)
            (st.rng.headD 0)).2
          (pairPoolR questions p) (st.rng.tail.headD 0)).1 with
      | none => simp [hg1, hg2]
      | some q2 => simp [hg1, hg2]
    | some q1 =>
      simp only [hg1]
      cases hg2 : (get_unique_question
          (get_unique_question st.used (pairPoolL questions p)
            (st.rng.headD 0)).2
          (pairPoolR questions p) (st.rng.tail.headD 0)).1 with
      | none => simp [hg1, hg2]
      | some q2 => simp [hg1, hg2]
  · intro ev hev
    rcases List.mem_cons.mp hev with hev1 | hev2
    · subst hev1
      exact guq_event_ok _ _ _
    · rw [List.mem_singleton] at hev2
      subst hev2
      exact guq_event_ok _ _ _

theorem trace_ok_fold {β : Type} (step : SelSt → β → SelSt)
    (hstep : ∀ st x, ∃ evs, (step st x).trace = st.trace ++ evs ∧
      ∀ ev ∈ evs, eventOK ev) :
    ∀ (l : List β) (st : SelSt), (∀ ev ∈ st.trace, eventOK ev) →
      ∀ ev ∈ (l.foldl step st).trace, eventOK ev := by
  intro l
  induction l with
  | nil => intro st h ev hev; exact h ev hev
  | cons x t ih =>
    intro st h ev hev
    refine ih (step st x) ?_ ev hev
    intro ev' hev'
    obtain ⟨evs, heq, hok⟩ := hstep st x
    rw [heq] at hev'
    rcases List.mem_append.mp hev' with hm | hm
    · exact h ev' hm
    · exact hok ev' hm

theorem entriesLoop (questions : List Question) :
    ∀ (entries : List Slot) (st : SelSt),
    List.Nodup (entries.map coordOf) →
    (∀ e ∈ entries, dlookup st.selected (coordOf e) = none) →
    (∀ e ∈ entries,
      st.used.card + entries.length ≤ poolIdsCard (entryPool questions e)) →
    ∃ qs : List Question,
      qs.length = entries.length ∧
      (entries.foldl (entryStep questions) st).selected
        = st.selected ++ (entries.map coordOf).zip qs ∧
      (entries.foldl (entryStep questions) st).used.card
        ≤ st.used.card + entries.length := by
  intro entries
  induction entries with
  | nil => intro st _ _ _; exact ⟨[], rfl, by simp, by simp⟩
  | cons e t ih =>
    intro st hnd hd hp
    have hde : dlookup st.selected (coordOf e) = none :=
      hd e (List.mem_cons_self _ _)
    have hcard : st.used.card < poolIdsCard (entryPool questions e) := by
      have := hp e (List.mem_cons_self _ _)
      simp only [List.length_cons] at this
      omega
    obtain ⟨q, hqp, hqu, heq⟩ := guq_spec_unused st.used
      (entryPool questions e) (st.rng.headD 0)
      (exists_unused_of_card hcard)
    have hstep := @entryStep_some questions st e q hde (by rw [heq])
    rw [List.map_cons] at hnd
    have hnd2 := List.nodup_cons.mp hnd
    have hd' : ∀ e' ∈ t,
        dlookup (dinsert st.selected (coordOf e) q) (coordOf e') = none := by
      intro e' he'
      have hne : coordOf e' ≠ coordOf e := fun hc =>
        hnd2.1 (hc ▸ List.mem_map_of_mem coordOf he')
      rw [dlookup_dinsert_ne _ _ hne]
      exact hd e' (List.mem_cons_of_mem _ he')
    have hp' : ∀ e' ∈ t,
        (insert q.id st.used).card + t.length
          ≤ poolIdsCard (entryPool questions e') := by
      intro e' he'
      have h1 := hp e' (List.mem_cons_of_mem _ he')
      have h2 : (insert q.id st.used).card = st.used.card + 1 :=
        Finset.card_insert_of_not_mem hqu
      simp only [List.length_cons] at h1
      omega
    obtain ⟨qs, hlen, hselF, hcardF⟩ := ih
      { selected := dinsert st.selected (coordOf e) q,
        used := insert q.id st.used,
        rng := st.rng.tail,
        trace := st.trace ++ [⟨st.used, entryPool questions e, some q⟩] }
      hnd2.2 hd' hp'
    refine ⟨q :: qs, by simp [hlen], ?_, ?_⟩
    · rw [List.foldl_cons, hstep, hselF]
      simp only [dinsert_of_lookup_none q hde, List.map_cons,
        List.zip_cons_cons, List.append_assoc, List.singleton_append]
    · rw [List.foldl_cons, hstep]
      have h2 : (insert q.id st.used).card = st.used.card + 1 :=
        Finset.card_insert_of_not_mem hqu
      simp only [List.length_cons]
      have := hcardF
      simp only [h2] at this
      omega

theorem zip_row_lookup_filter :
    ∀ (entries : List Slot) (qs : List Question),
    qs.length = entries.length →
    List.Nodup (entries.map (fun e => (e.table_index, e.row_index))) →
    ∀ e ∈ entries, ∃ q : Question,
      dlookup ((entries.map coordOf).zip qs) (coordOf e) = some q ∧
      ((entries.map coordOf).zip qs).filter
        (fun p => decide (p.1.1 = e.table_index ∧ p.1.2.1 = e.row_index))
        = [(coordOf e, q)] := by
  intro entries
  induction entries with
  | nil => intro qs _ _ e he; simp at he
  | cons e0 t ih =>
    intro qs hlen hnd e he
    cases qs with
    | nil => simp at hlen
    | cons q0 qs0 =>
      rw [List.map_cons] at hnd
      have hnd2 := List.nodup_cons.mp hnd
      simp only [List.map_cons, List.zip_cons_cons]
      rcases List.mem_cons.mp he with rfl | het
      · refine ⟨q0, ?_, ?_⟩
        · rw [dlookup_cons, if_pos rfl]
        · rw [List.filter_cons]
          have hc : decide ((coordOf e, q0).1.1 = e.table_index ∧
              (coordOf e, q0).1.2.1 = e.row_index) = true := by
            simp [coordOf]
          rw [hc]
          have hrest : (((t.map coordOf).zip qs0).filter
              (fun p => decide (p.1.1 = e.table_index ∧
                p.1.2.1 = e.row_index))) = [] := by
            rw [List.filter_eq_nil_iff]
            rintro ⟨c, q⟩ hp
            have hc1 : c ∈ t.map coordOf := (List.of_mem_zip hp).1
            obtain ⟨e2, he2, rfl⟩ := List.mem_map.mp hc1
            simp only [coordOf, decide_eq_true_eq, not_and]
            intro h1 h2
            exact hnd2.1 (by
              rw [show (e.table_index, e.row_index)
                  = (e2.table_index, e2.row_index) from by rw [h1, h2]]
              exact List.mem_map_of_mem _ he2)
          rw [hrest, if_pos rfl]
      · have hne : (e0.table_index, e0.row_index)
            ≠ (e.table_index, e.row_index) := by
          intro hc
          exact hnd2.1 (hc ▸ List.mem_map_of_mem _ het)
        obtain ⟨q, hq, hf⟩ := ih qs0 (by simpa using hlen) hnd2.2 e het
        refine ⟨q, ?_, ?_⟩
        · rw [dlookup_cons, if_neg ?_]
          · exact hq
          · intro hc
            apply hne
            have h1 := congrArg Prod.fst hc
            have h2 := congrArg (fun x => x.2.1) hc
            simp [coordOf] at h1 h2
            rw [h1, h2]
        · rw [List.filter_cons]
          have hc : decide ((coordOf e0, q0).1.1 = e.table_index ∧
              (coordOf e0, q0).1.2.1 = e.row_index) = false := by
            simp only [coordOf, decide_eq_false_iff_not, not_and]
            intro h1 h2
            exact absurd (by rw [h1, h2]) hne
          rw [hc, if_neg (by simp)]
          exact hf

theorem orPairs_fold_dlookup_none {questions : List Question}
    (or_pairs : List (Slot × Slot)) :
    ∀ (st : SelSt) (c : Coord), dlookup st.selected c = none →
    (∀ p ∈ or_pairs, (c = coordOf p.1 → pairPoolL questions p = []) ∧
      (c = coordOf p.2 → pairPoolR questions p = [])) →
    dlookup ((or_pairs.foldl (orPairStep questions) st).selected) c = none := by
  induction or_pairs with
  | nil => intro st c h _; exact h
  | cons p t ih =>
    intro st c h hc
    rw [List.foldl_cons]
    refine ih _ c ?_ (fun p' hp' => hc p' (List.mem_cons_of_mem _ hp'))
    exact orPairStep_dlookup_none h (hc p (List.mem_cons_self _ _)).1
      (hc p (List.mem_cons_self _ _)).2

theorem entries_fold_dlookup_none {questions : List Question}
    (entries : List Slot) :
    ∀ (st : SelSt) (c : Coord), dlookup st.selected c = none →
    (∀ e ∈ entries, c ≠ coordOf e ∨ entryPool questions e = []) →
    dlookup ((entries.foldl (entryStep questions) st).selected) c = none := by
  induction entries with
  | nil => intro st c h _; exact h
  | cons e t ih =>
    intro st c h hc
    rw [List.foldl_cons]
    refine ih _ c ?_ (fun e' he' => hc e' (List.mem_cons_of_mem _ he'))
    rcases hc e (List.mem_cons_self _ _) with hne | hp
    · rw [entryStep_dlookup_ne hne]
      exact h
    · by_cases hne : c = coordOf e
      · subst hne
        rw [entryStep_pool_nil h hp]
        exact h
      · rw [entryStep_dlookup_ne hne]
        exact h

/-! Template-parser lemmas. -/

theorem find?_first {α : Type} (p : α → Bool) :
    ∀ (l : List α) (x : α), l.find? p = some x →
    p x = true ∧ ∃ n, l.get? n = some x ∧
      ∀ m, m < n → ∀ y, l.get? m = some y → p y = false := by
  intro l
  induction l with
  | nil => intro x h; simp at h
  | cons a t ih =>
    intro x h
    by_cases hpa : p a = true
    · rw [List.find?_cons_of_pos _ hpa] at h
      injection h with h
      subst h
      exact ⟨hpa, 0, rfl, fun m hm => by omega⟩
    · rw [List.find?_cons_of_neg _ hpa] at h
      obtain ⟨hx, n, hget, hmin⟩ := ih x h
      refine ⟨hx, n + 1, by simpa using hget, ?_⟩
      intro m hm y hy
      cases m with
      | zero =>
        injection hy with hy
        subst hy
        exact Bool.not_eq_true _ ▸ by simpa using hpa
      | succ m0 =>
        exact hmin m0 (by omega) y (by simpa using hy)

theorem findPrev_spec (slots : List Slot) :
    ∀ (i : Nat) (l : Slot), findPrev slots i = some l →
    ∃ j, j < i ∧ slots.get? j = some l ∧ slotNumTruthy l = true ∧
      ∀ j' s', j < j' → j' < i → slots.get? j' = some s' →
        slotNumTruthy s' = false := by
  intro i
  induction i with
  | zero => intro l h; simp [findPrev] at h
  | succ j ih =>
    intro l h
    unfold findPrev at h
    cases hg : slots.get? j with
    | some s =>
      rw [hg] at h
      dsimp only at h
      by_cases ht : slotNumTruthy s = true
      · rw [if_pos ht] at h
        injection h with h
        subst h
        exact ⟨j, by omega, hg, ht, fun j' s' h1 h2 => by omega⟩
      · rw [if_neg ht] at h
        obtain ⟨j0, hj0, hget, htr, hmin⟩ := ih l h
        refine ⟨j0, by omega, hget, htr, ?_⟩
        intro j' s' h1 h2 hs'
        by_cases hj' : j' = j
        · subst hj'
          rw [hg] at hs'
          injection hs' with hs'
          subst hs'
          exact Bool.not_eq_true _ ▸ by simpa using ht
        · exact hmin j' s' h1 (by omega) hs'
    | none =>
      rw [hg] at h
      dsimp only at h
      obtain ⟨j0, hj0, hget, htr, hmin⟩ := ih l h
      refine ⟨j0, by omega, hget, htr, ?_⟩
      intro j' s' h1 h2 hs'
      by_cases hj' : j' = j
      · subst hj'
        rw [hg] at hs'
        exact absurd hs' (by simp)
      · exact hmin j' s' h1 (by omega) hs'

theorem find_or_pairs_mem {slots : List Slot} {i : Nat} {s l r : Slot}
    (hs : slots.get? i = some s) (hor : s.is_or = true)
    (hl : findPrev slots i = some l)
    (hr : (slots.drop (i + 1)).find? slotNumTruthy = some r) :
    (l, r) ∈ find_or_pairs slots := by
  unfold find_or_pairs
  rw [List.mem_filterMap]
  refine ⟨i, List.mem_range.mpr (List.get?_eq_some.mp hs).1, ?_⟩
  rw [hs]
  simp only [hor, if_true, hl, hr]

theorem mem_enumFrom_of_get? {α : Type} :
    ∀ (l : List α) (k n : Nat) (a : α),
    l.get? n = some a → (k + n, a) ∈ l.enumFrom k := by
  intro l
  induction l with
  | nil => intro k n a h; simp at h
  | cons x t ih =>
    intro k n a h
    cases n with
    | zero =>
      injection h with h
      subst h
      simp [List.enumFrom]
    | succ m =>
      have hmem := ih (k + 1) m a (by simpa using h)
      rw [show k + (m + 1) = (k + 1) + m from by omega]
      exact List.mem_cons_of_mem _ hmem

theorem mem_enum_of_get? {α : Type} (l : List α) (n : Nat) (a : α)
    (h : l.get? n = some a) : (n, a) ∈ l.enum := by
  simpa using mem_enumFrom_of_get? l 0 n a h

theorem select_trace_ok (entries : List Slot) (or_pairs : List (Slot × Slot))
    (questions : List Question) (rng : List Nat) :
    ∀ ev ∈ (select_questionsSt entries or_pairs questions rng).trace,
      eventOK ev := by
  unfold select_questionsSt
  refine trace_ok_fold _ (fun st e => entryStep_trace_extend questions st e)
    entries _ ?_
  refine trace_ok_fold _ (fun st p => orPairStep_trace_extend questions st p)
    or_pairs _ ?_
  intro ev hev
  simp at hev

/-! Bank-parser lemmas. -/

theorem extractRows_ids :
    ∀ (rows : List (List BankCell)) (qid : Nat),
    (extractRows rows qid).map (fun q => q.id)
      = List.range' (qid + 1) (extractRows rows qid).length := by
  intro rows
  induction rows with
  | nil => intro qid; rfl
  | cons row rest ih =>
    intro qid
    unfold extractRows
    cases hall : (rowTexts row).all (fun t => decide (t = "")) with
    | true =>
      simp only [hall, if_true]
      exact ih qid
    | false =>
      simp only [hall, Bool.false_eq_true, if_false]
      cases hb : bloomSearch (rowJoined row).data with
      | none => exact ih qid
      | some b =>
        simp only [List.map_cons, List.length_cons, ih (qid + 1)]
        rfl

/-! Claim theorems. -/

/-- C1: Selector fallback to repetition.  When every question of a
nonempty pool is already used, get_unique_question draws from the full
unfiltered pool at the oracle index (first conjunct), every pool member is
reachable by some draw (second conjunct), and in the concrete one-question
two-slot scenario the first slot receives the question and the second slot
reuses it instead of getting no assignment (last conjuncts). -/
theorem c1_selector_fallback_repetition :
    (∀ (used : Finset Nat) (pool : List Question) (k : Nat),
      pool ≠ [] → (∀ q ∈ pool, q.id ∈ used) →
      (get_unique_question used pool k).1 = pool.get? (k % pool.length)) ∧
    (∀ (used : Finset Nat) (pool : List Question) (q : Question),
      (∀ q' ∈ pool, q'.id ∈ used) → q ∈ pool →
      ∃ k, (get_unique_question used pool k).1 = some q) ∧
    dlookup (select_questions [slotA, slotB] [] [qA] [0, 0]).1 (0, 0, 0)
      = some qA ∧
    dlookup (select_questions [slotA, slotB] [] [qA] [0, 0]).1 (0, 1, 0)
      = some qA := by
  have hmain : ∀ (used : Finset Nat) (pool : List Question) (k : Nat),
      pool ≠ [] → (∀ q ∈ pool, q.id ∈ used) →
      (get_unique_question used pool k).1 = pool.get? (k % pool.length) := by
    intro used pool k hp hall
    obtain ⟨q, hget, _, heq⟩ := guq_spec_exhausted used pool k hp hall
    rw [heq, hget]
  refine ⟨hmain, ?_, by decide, by decide⟩
  intro used pool q hall hq
  obtain ⟨n, hn⟩ := List.mem_iff_get?.mp hq
  have hlt : n < pool.length := (List.get?_eq_some.mp hn).1
  refine ⟨n, ?_⟩
  rw [hmain used pool n (List.ne_nil_of_mem hq) hall, Nat.mod_eq_of_lt hlt,
    hn]

/-- C1 witness: the fallback theorem applied at an exhausted singleton
pool. -/
theorem c1_witness :
    ((([qA] : List Question) ≠ [] ∧ ∀ q ∈ [qA], q.id ∈ ({1} : Finset Nat)) ∧
      (get_unique_question {1} [qA] 0).1 = [qA].get? (0 % [qA].length)) ∧
    ((∀ q' ∈ [qA], q'.id ∈ ({1} : Finset Nat)) ∧
      ∃ k, (get_unique_question {1} [qA] k).1 = some qA) :=
  ⟨⟨⟨by decide, by decide⟩,
      c1_selector_fallback_repetition.1 {1} [qA] 0 (by decide) (by decide)⟩,
    ⟨by decide,
      c1_selector_fallback_repetition.2.1 {1} [qA] qA (by decide)
        (by decide)⟩⟩

/-- C3: Per-set uniqueness invariant.  Every selector call recorded during
one select_questions invocation chooses an unused pool member whenever the
pool still has one (so an already-used id is never taken while an unused
alternative exists), and a nonempty pool always yields a choice
(exhaustion gives repetition, not failure). -/
theorem c3_per_set_uniqueness_invariant (entries : List Slot)
    (or_pairs : List (Slot × Slot)) (questions : List Question)
    (rng : List Nat) (ev : ChoiceEvent)
    (hev : ev ∈ (select_questionsSt entries or_pairs questions rng).trace) :
    ((∃ q ∈ ev.pool, q.id ∉ ev.usedBefore) →
      ∃ q, ev.chosen = some q ∧ q ∈ ev.pool ∧ q.id ∉ ev.usedBefore) ∧
    (ev.pool ≠ [] → ∃ q ∈ ev.pool, ev.chosen = some q) :=
  select_trace_ok entries or_pairs questions rng ev hev

/-- C3 witness: the invariant applied to the first recorded call of a
concrete two-slot run. -/
theorem c3_witness :
    ((⟨∅, [qA, qB], some qA⟩ : ChoiceEvent) ∈
      (select_questionsSt [slotA, slotB] [] [qA, qB] [0, 0]).trace) ∧
    (((∃ q ∈ [qA, qB], q.id ∉ (∅ : Finset Nat)) →
      ∃ q, (some qA : Option Question) = some q ∧ q ∈ [qA, qB] ∧
        q.id ∉ (∅ : Finset Nat)) ∧
    (([qA, qB] : List Question) ≠ [] →
      ∃ q ∈ [qA, qB], (some qA : Option Question) = some q)) :=
  ⟨by decide,
    c3_per_set_uniqueness_invariant [slotA, slotB] [] [qA, qB] [0, 0]
      ⟨∅, [qA, qB], some qA⟩ (by decide)⟩

/-- C4: OR-pair distinctness.  When two questions with distinct ids are
eligible (members of both pools and unused) before an OR pair is
processed, both members of the pair receive a question and the two
received questions have distinct ids. -/
theorem c4_or_pair_distinct (questions : List Question) (st : SelSt)
    (p : Slot × Slot) (q1 q2 : Question)
    (h1l : q1 ∈ pairPoolL questions p) (h1r : q1 ∈ pairPoolR questions p)
    (h2l : q2 ∈ pairPoolL questions p) (h2r : q2 ∈ pairPoolR questions p)
    (hid : q1.id ≠ q2.id) (hu1 : q1.id ∉ st.used) (hu2 : q2.id ∉ st.used)
    (hc : coordOf p.1 ≠ coordOf p.2) :
    ∃ ql qr : Question,
      dlookup (orPairStep questions st p).selected (coordOf p.1) = some ql ∧
      dlookup (orPairStep questions st p).selected (coordOf p.2) = some qr ∧
      ql.id ≠ qr.id := by
  obtain ⟨ql, hqlp, hqlu, heq1⟩ := guq_spec_unused st.used
    (pairPoolL questions p) (st.rng.headD 0) ⟨q1, h1l, hu1⟩
  have hex2 : ∃ q ∈ pairPoolR questions p, q.id ∉ insert ql.id st.used := by
    by_cases hq1 : q1.id = ql.id
    · refine ⟨q2, h2r, ?_⟩
      rw [Finset.mem_insert]
      push_neg
      exact ⟨fun hcc => hid (by rw [hq1, hcc]), hu2⟩
    · refine ⟨q1, h1r, ?_⟩
      rw [Finset.mem_insert]
      push_neg
      exact ⟨hq1, hu1⟩
  obtain ⟨qr, hqrp, hqru, heq2⟩ := guq_spec_unused (insert ql.id st.used)
    (pairPoolR questions p) (st.rng.tail.headD 0) hex2
  have hne : ql.id ≠ qr.id := fun hcc => hqru (by
    rw [← hcc]
    exact Finset.mem_insert_self _ _)
  refine ⟨ql, qr, ?_, ?_, hne⟩
  · unfold orPairStep
    simp only [guqStep, heq1, heq2]
    rw [dlookup_dinsert_ne _ _ hc, dlookup_dinsert_self]
  · unfold orPairStep
    simp only [guqStep, heq1, heq2]
    rw [dlookup_dinsert_self]

/-- C4 witness: the OR-pair distinctness theorem at a concrete two
question bank. -/
theorem c4_witness :
    (qA ∈ pairPoolL [qA, qB] (slotA, slotB) ∧
      qA ∈ pairPoolR [qA, qB] (slotA, slotB) ∧
      qB ∈ pairPoolL [qA, qB] (slotA, slotB) ∧
      qB ∈ pairPoolR [qA, qB] (slotA, slotB) ∧
      qA.id ≠ qB.id ∧
      qA.id ∉ (⟨[], ∅, [0, 0], []⟩ : SelSt).used ∧
      qB.id ∉ (⟨[], ∅, [0, 0], []⟩ : SelSt).used ∧
      coordOf (slotA, slotB).1 ≠ coordOf (slotA, slotB).2) ∧
    ∃ ql qr : Question,
      dlookup (orPairStep [qA, qB] ⟨[], ∅, [0, 0], []⟩
        (slotA, slotB)).selected (coordOf (slotA, slotB).1) = some ql ∧
      dlookup (orPairStep [qA, qB] ⟨[], ∅, [0, 0], []⟩
        (slotA, slotB)).selected (coordOf (slotA, slotB).2) = some qr ∧
      ql.id ≠ qr.id :=
  ⟨⟨by decide, by decide, by decide, by decide, by decide, by decide,
      by decide, by decide⟩,
    c4_or_pair_distinct [qA, qB] ⟨[], ∅, [0, 0], []⟩ (slotA, slotB) qA qB
      (by decide) (by decide) (by decide) (by decide) (by decide)
      (by decide) (by decide) (by decide)⟩

/-- C2 counterexample: with an empty bank, a slot whose tag matches zero
questions is simply absent from the selection, and the assembled document
is the template unchanged — the slot cell still reads its original text,
so the output holds an unmodified cell and no placeholder text. -/
theorem c2_counterexample :
    (select_questions [slotA] [] [] [0]).1 = [] ∧
    assemble_doc docEx (select_questions [slotA] [] [] [0]).1 = docEx ∧
    rowAt (assemble_doc docEx (select_questions [slotA] [] [] [0]).1) 0 0
      = [ "1.", "", "", "" ] := by
  refine ⟨by decide, by decide, by decide⟩

/-- C2 amended: every slot whose eligible pool is empty — whether it is
processed as a standalone entry or as either member of an OR pair —
receives no entry in the selected dictionary (first conjunct; the only
well-formedness assumptions are that slot coordinates identify slots, as
in any parsed template), and assemble_doc leaves every row that no
selected coordinate targets exactly as it was in the template (second
conjunct); the run itself completes normally, returning the other slots'
assignments. -/
theorem c2_amended :
    (∀ (entries : List Slot) (or_pairs : List (Slot × Slot))
        (questions : List Question) (rng : List Nat) (e : Slot),
      e ∈ entries →
      List.Nodup (entries.map coordOf) →
      (∀ p ∈ or_pairs, (coordOf e = coordOf p.1 → p.1 = e) ∧
        (coordOf e = coordOf p.2 → p.2 = e)) →
      entryPool questions e = [] →
      dlookup (select_questions entries or_pairs questions rng).1
        (coordOf e) = none) ∧
    (∀ (doc : TemplateDoc) (sel : List (Coord × Question)) (ti ri : Nat),
      (∀ p ∈ sel, ¬ (p.1.1 = ti ∧ p.1.2.1 = ri)) →
      rowAt (assemble_doc doc sel) ti ri = rowAt doc ti ri) := by
  constructor
  · intro entries or_pairs questions rng e he hnd hop hpool
    have hpf : poolFor questions
        (allowed_blooms_for_slot_num (e.slot_num.getD 0))
        e.unit_in_template = [] := by
      have h0 := hpool
      unfold entryPool at h0
      exact h0
    unfold select_questions select_questionsSt
    apply entries_fold_dlookup_none
    · apply orPairs_fold_dlookup_none
      · rfl
      · intro p hp
        constructor
        · intro hcc
          have hpe := (hop p hp).1 hcc
          unfold pairPoolL
          rw [hpe]
          exact hpf
        · intro hcc
          have hpe := (hop p hp).2 hcc
          unfold pairPoolR
          rw [hpe]
          exact poolFor_nil_unit hpf p.1.unit_in_template
    · intro e' he'
      by_cases hee : coordOf e = coordOf e'
      · right
        rw [show e' = e from List.inj_on_of_nodup_map hnd he' he hee.symm]
        exact hpool
      · left
        exact hee
  · intro doc sel ti ri hall
    rw [rowAt_assemble,
      foldl_filter_prop (fun p : Coord × Question =>
        p.1.1 = ti ∧ p.1.2.1 = ri) (fun r p => fillRow r p.2) sel
        (rowAt doc ti ri),
      List.filter_eq_nil_iff.mpr (by
        intro p hp
        simpa using hall p hp)]
    rfl

/-- C2 amended witness: an empty-pool slot that is both a standalone
entry and the left member of an OR pair is left unselected, and its row
survives assembly unchanged. -/
theorem c2_witness :
    ((slotA ∈ [slotA] ∧
        List.Nodup ([slotA].map coordOf) ∧
        (∀ p ∈ [(slotA, slotB)],
          (coordOf slotA = coordOf p.1 → p.1 = slotA) ∧
          (coordOf slotA = coordOf p.2 → p.2 = slotA)) ∧
        entryPool [] slotA = []) ∧
      dlookup (select_questions [slotA] [(slotA, slotB)] [] [0, 0]).1
        (coordOf slotA) = none) ∧
    ((∀ p ∈ (select_questions [slotA] [(slotA, slotB)] [] [0, 0]).1,
        ¬ (p.1.1 = 0 ∧ p.1.2.1 = 0)) ∧
      rowAt (assemble_doc docEx
          (select_questions [slotA] [(slotA, slotB)] [] [0, 0]).1) 0 0
        = rowAt docEx 0 0) :=
  ⟨⟨⟨by decide, by decide, by decide, by decide⟩,
      c2_amended.1 [slotA] [(slotA, slotB)] [] [0, 0] slotA (by decide)
        (by decide) (by decide) (by decide)⟩,
    ⟨by decide,
      c2_amended.2 docEx
        (select_questions [slotA] [(slotA, slotB)] [] [0, 0]).1 0 0
        (by decide)⟩⟩

/-- C5 counterexample: slot number 23 lies outside every claimed range,
yet the code's matcher yields the full level list rather than no mapping,
while the claim's matcher yields none. -/
theorem c5_counterexample :
    allowed_blooms_for_slot_num 23 = [1, 2, 3, 4, 5, 6] ∧
    allowed_blooms_for_slot_num 23 ≠ [] ∧
    allowed_blooms_claim 23 = none := by decide

/-- C5 amended: the matcher maps slots 1-10 to levels 1-3, 11-20 to 4-5,
21-22 to 6, and every other slot number to the full level list 1-6 (the
downstream fallback is the unrestricted pool, not an absent mapping); it
never fails. -/
theorem c5_amended (n : Nat) :
    allowed_blooms_for_slot_num n
      = (allowed_blooms_claim n).getD [1, 2, 3, 4, 5, 6] := by
  unfold allowed_blooms_for_slot_num allowed_blooms_claim
  split_ifs <;> rfl

/-- C6: Round-trip.  With no OR pairs, slots sitting in distinct four-cell
rows, and at least N distinct eligible question ids in every slot's pool,
one select_questions pass assigns a question to every one of the N slots
(the selected dictionary has exactly N entries and no slot is missing) and
assembly rewrites each slot's row with its assigned question: N filled
rows, zero unfilled slots. -/
theorem c6_round_trip (entries : List Slot) (questions : List Question)
    (rng : List Nat) (doc : TemplateDoc)
    (hrow : List.Nodup (entries.map (fun e => (e.table_index, e.row_index))))
    (hpool : ∀ e ∈ entries,
      entries.length ≤ poolIdsCard (entryPool questions e))
    (hshape : ∀ e ∈ entries,
      4 ≤ (rowAt doc e.table_index e.row_index).length) :
    (select_questions entries [] questions rng).1.length = entries.length ∧
    ∀ e ∈ entries, ∃ q : Question,
      dlookup (select_questions entries [] questions rng).1 (coordOf e)
        = some q ∧
      rowAt (assemble_doc doc (select_questions entries [] questions rng).1)
          e.table_index e.row_index
        = fillRow (rowAt doc e.table_index e.row_index) q ∧
      4 ≤ (rowAt doc e.table_index e.row_index).length := by
  have hnd : List.Nodup (entries.map coordOf) := by
    have hmm : entries.map (fun e => (e.table_index, e.row_index))
        = (entries.map coordOf).map (fun c => (c.1, c.2.1)) := by
      rw [List.map_map]
      rfl
    rw [hmm] at hrow
    exact List.Nodup.of_map _ hrow
  obtain ⟨qs, hlen, hsel, _⟩ := entriesLoop questions entries
    ⟨[], ∅, rng, []⟩ hnd (fun e _ => rfl)
    (fun e he => by simpa using hpool e he)
  have hsq : (select_questions entries [] questions rng).1
      = (entries.map coordOf).zip qs := by
    unfold select_questions select_questionsSt
    rw [List.foldl_nil]
    simpa using hsel
  constructor
  · rw [hsq, List.length_zip, List.length_map, hlen]
    exact Nat.min_self _
  · intro e he
    have hrow2 : List.Nodup
        (entries.map (fun e => (e.table_index, e.row_index))) := hrow
    obtain ⟨q, hq, hf⟩ := zip_row_lookup_filter entries qs hlen hrow2 e he
    refine ⟨q, by rw [hsq]; exact hq, ?_, hshape e he⟩
    rw [hsq, rowAt_assemble,
      foldl_filter_prop (fun p : Coord × Question =>
        p.1.1 = e.table_index ∧ p.1.2.1 = e.row_index)
        (fun r p => fillRow r p.2) _ (rowAt doc e.table_index e.row_index),
      hf]
    rfl

/-- C6 witness: two slots in distinct rows, a two-question bank, and a
two-row template give two filled rows and no unfilled slot. -/
theorem c6_witness :
    (List.Nodup ([slotA, slotB].map (fun e => (e.table_index, e.row_index))) ∧
      (∀ e ∈ [slotA, slotB],
        ([slotA, slotB] : List Slot).length
          ≤ poolIdsCard (entryPool [qA, qB] e)) ∧
      (∀ e ∈ [slotA, slotB],
        4 ≤ (rowAt docEx e.table_index e.row_index).length)) ∧
    ((select_questions [slotA, slotB] [] [qA, qB] [0, 0]).1.length
        = ([slotA, slotB] : List Slot).length ∧
      ∀ e ∈ [slotA, slotB], ∃ q : Question,
        dlookup (select_questions [slotA, slotB] [] [qA, qB] [0, 0]).1
          (coordOf e) = some q ∧
        rowAt (assemble_doc docEx
            (select_questions [slotA, slotB] [] [qA, qB] [0, 0]).1)
            e.table_index e.row_index
          = fillRow (rowAt docEx e.table_index e.row_index) q ∧
        4 ≤ (rowAt docEx e.table_index e.row_index).length) :=
  ⟨⟨by decide, by decide, by decide⟩,
    c6_round_trip [slotA, slotB] [qA, qB] [0, 0] docEx (by decide)
      (by decide) (by decide)⟩

/-- C9: Implicit row-shape guard.  A row with fewer than four cells is
never changed by assembly, whatever questions are selected anywhere (its
slot stays silently unfilled), while a four-or-more-cell row targeted by
exactly one selected coordinate is rewritten with that coordinate's
question. -/
theorem c9_short_row_guard :
    (∀ (doc : TemplateDoc) (sel : List (Coord × Question)) (ti ri : Nat),
      (rowAt doc ti ri).length < 4 →
      rowAt (assemble_doc doc sel) ti ri = rowAt doc ti ri) ∧
    (∀ (doc : TemplateDoc) (sel : List (Coord × Question)) (ti ri ci : Nat)
        (q : Question),
      sel.filter (fun p => decide (p.1.1 = ti ∧ p.1.2.1 = ri))
        = [((ti, ri, ci), q)] →
      4 ≤ (rowAt doc ti ri).length →
      rowAt (assemble_doc doc sel) ti ri = fillRow (rowAt doc ti ri) q) := by
  constructor
  · intro doc sel ti ri h
    rw [rowAt_assemble]
    exact foldl_fill_of_short sel _ h
  · intro doc sel ti ri ci q hf _
    rw [rowAt_assemble,
      foldl_filter_prop (fun p : Coord × Question =>
        p.1.1 = ti ∧ p.1.2.1 = ri) (fun r p => fillRow r p.2) sel
        (rowAt doc ti ri),
      hf]
    rfl

/-- C9 witness: with a three-cell first row and a four-cell second row,
both rows carrying a selected question, the short row is untouched and
the long row is filled. -/
theorem c9_witness :
    (((rowAt docShort 0 0).length < 4 ∧
        rowAt (assemble_doc docShort [((0, 0, 0), qA), ((0, 1, 0), qB)]) 0 0
          = rowAt docShort 0 0) ∧
      rowAt docShort 0 0 = [ "1.", "x", "y" ]) ∧
    (([((0, 0, 0), qA), ((0, 1, 0), qB)].filter
          (fun p => decide (p.1.1 = 0 ∧ p.1.2.1 = 1))
        = [((0, 1, 0), qB)] ∧
      4 ≤ (rowAt docShort 0 1).length) ∧
      rowAt (assemble_doc docShort [((0, 0, 0), qA), ((0, 1, 0), qB)]) 0 1
        = fillRow (rowAt docShort 0 1) qB) :=
  ⟨⟨⟨by decide,
      c9_short_row_guard.1 docShort [((0, 0, 0), qA), ((0, 1, 0), qB)] 0 0
        (by decide)⟩, by decide⟩,
    ⟨⟨by decide, by decide⟩,
      c9_short_row_guard.2 docShort [((0, 0, 0), qA), ((0, 1, 0), qB)] 0 1 0
        qB (by decide) (by decide)⟩⟩

/-- C10: Implicit identifier uniqueness.  One bank parse numbers its
question records 1, 2, ..., N in row-encounter order, so the id list is
exactly the range starting at 1 and the ids are pairwise distinct. -/
theorem c10_sequential_ids (tables : List (List (List BankCell))) :
    (extract_questions_from_bank tables).map (fun q => q.id)
      = List.range' 1 (extract_questions_from_bank tables).length ∧
    List.Nodup ((extract_questions_from_bank tables).map (fun q => q.id)) := by
  have h := extractRows_ids tables.flatten 0
  constructor
  · exact h
  · rw [show (extract_questions_from_bank tables).map (fun q => q.id)
        = List.range' 1 (extract_questions_from_bank tables).length from h]
    exact List.nodup_range' _ _

/-- C8: OR marker recognition and pairing.  Every cell whose stripped
text uppercases to one of the three OR forms becomes an is_or slot in the
parse (first conjunct); each OR marker whose scan finds a preceding and a
following numbered slot contributes exactly that pair (second conjunct);
and the two scans return the nearest preceding and the nearest following
truthy-numbered slots (last conjuncts). -/
theorem c8_or_marker_pairing :
    (∀ (doc : TemplateDoc) (ti ri ci : Nat) (txt : String),
      cellAt? doc ti ri ci = some txt → orMarker (pstrip txt) = true →
      ({ table_index := ti, row_index := ri, cell_index := ci,
         slot_num := none, is_or := true, unit_in_template := none } : Slot)
        ∈ parse_template_slots doc) ∧
    (∀ (slots : List Slot) (i : Nat) (s l r : Slot),
      slots.get? i = some s → s.is_or = true →
      findPrev slots i = some l →
      (slots.drop (i + 1)).find? slotNumTruthy = some r →
      (l, r) ∈ find_or_pairs slots) ∧
    (∀ (slots : List Slot) (i : Nat) (l : Slot),
      findPrev slots i = some l →
      ∃ j, j < i ∧ slots.get? j = some l ∧ slotNumTruthy l = true ∧
        ∀ j' s', j < j' → j' < i → slots.get? j' = some s' →
          slotNumTruthy s' = false) ∧
    (∀ (slots : List Slot) (i : Nat) (r : Slot),
      (slots.drop (i + 1)).find? slotNumTruthy = some r →
      ∃ k, i < k ∧ slots.get? k = some r ∧ slotNumTruthy r = true ∧
        ∀ k' s', i < k' → k' < k → slots.get? k' = some s' →
          slotNumTruthy s' = false) := by
  refine ⟨?_, ?_, fun slots i l h => findPrev_spec slots i l h, ?_⟩
  · intro doc ti ri ci txt hcell hor
    unfold cellAt? at hcell
    cases hta : doc.get? ti with
    | none => rw [hta] at hcell; simp at hcell
    | some table =>
      rw [hta] at hcell
      simp only [Option.some_bind] at hcell
      cases htr : table.get? ri with
      | none => rw [htr] at hcell; simp at hcell
      | some row =>
        rw [htr] at hcell
        simp only [Option.some_bind] at hcell
        cases htc : row.get? ci with
        | none => rw [htc] at hcell; simp at hcell
        | some txt0 =>
          rw [htc] at hcell
          injection hcell with hcell
          subst hcell
          unfold parse_template_slots
          rw [List.mem_flatMap]
          refine ⟨(ti, table), mem_enum_of_get? _ _ _ hta, ?_⟩
          rw [List.mem_flatMap]
          refine ⟨(ri, row), mem_enum_of_get? _ _ _ htr, ?_⟩
          rw [List.mem_filterMap]
          refine ⟨(ci, txt0), mem_enum_of_get? _ _ _ htc, ?_⟩
          unfold parseCell
          have hne : ¬ (pstrip txt0 = "") := by
            intro hemp
            rw [hemp] at hor
            exact absurd hor (by decide)
          rw [if_neg hne, if_pos hor]
  · intro slots i s l r hs hor hl hr
    exact find_or_pairs_mem hs hor hl hr
  · intro slots i r h
    obtain ⟨hp, n, hget, hmin⟩ := find?_first slotNumTruthy _ r h
    rw [List.get?_drop] at hget
    refine ⟨i + 1 + n, by omega, hget, hp, ?_⟩
    intro k' s' h1 h2 hs'
    refine hmin (k' - (i + 1)) (by omega) s' ?_
    rw [List.get?_drop, show i + 1 + (k' - (i + 1)) = k' from by omega]
    exact hs'

/-- C8 witness: the parenthesised lowercase marker is recognised in a
one-cell template, and in a three-slot list the marker pairs the two
numbered neighbours, which the scans certify as nearest. -/
theorem c8_witness :
    ((cellAt? docOrEx 0 0 0 = some " ( or ) " ∧
        orMarker (pstrip " ( or ) ") = true) ∧
      ({ table_index := 0, row_index := 0, cell_index := 0,
         slot_num := none, is_or := true, unit_in_template := none } : Slot)
        ∈ parse_template_slots docOrEx) ∧
    (([slotA, orSlotEx, slotB].get? 1 = some orSlotEx ∧
        orSlotEx.is_or = true ∧
        findPrev [slotA, orSlotEx, slotB] 1 = some slotA ∧
        (([slotA, orSlotEx, slotB] : List Slot).drop 2).find? slotNumTruthy
          = some slotB) ∧
      (slotA, slotB) ∈ find_or_pairs [slotA, orSlotEx, slotB]) ∧
    (∃ j, j < 1 ∧ [slotA, orSlotEx, slotB].get? j = some slotA ∧
      slotNumTruthy slotA = true ∧
      ∀ j' s', j < j' → j' < 1 →
        [slotA, orSlotEx, slotB].get? j' = some s' →
          slotNumTruthy s' = false) ∧
    (∃ k, 1 < k ∧ [slotA, orSlotEx, slotB].get? k = some slotB ∧
      slotNumTruthy slotB = true ∧
      ∀ k' s', 1 < k' → k' < k →
        [slotA, orSlotEx, slotB].get? k' = some s' →
          slotNumTruthy s' = false) :=
  ⟨⟨⟨by decide, by decide⟩,
      c8_or_marker_pairing.1 docOrEx 0 0 0 " ( or ) " (by decide)
        (by decide)⟩,
    ⟨⟨by decide, by decide, by decide, by decide⟩,
      c8_or_marker_pairing.2.1 [slotA, orSlotEx, slotB] 1 orSlotEx slotA
        slotB (by decide) (by decide) (by decide) (by decide)⟩,
    c8_or_marker_pairing.2.2.1 [slotA, orSlotEx, slotB] 1 slotA (by decide),
    c8_or_marker_pairing.2.2.2 [slotA, orSlotEx, slotB] 1 slotB (by decide)⟩

/-- C7 counterexample: a one-cell row reading 3B satisfies the claimed
unit-and-part tag pattern yet the parser emits no question for it, while
a row with no such tag cell but a K2 match is parsed as a question row —
so the claimed test is wrong in both directions. -/
theorem c7_counterexample :
    claim_is_question_row [ "3B" ] = true ∧
    extract_questions_from_bank [[[⟨ "3B", [] ⟩]]] = [] ∧
    claim_is_question_row [ "K2 what is foo" ] = false ∧
    (extract_questions_from_bank [[[⟨ "K2 what is foo", [] ⟩]]]).length
      = 1 := by
  refine ⟨by decide, by decide, by decide, by decide⟩

/-- C7 amended: a bank row produces a question exactly when its stripped
cell texts are not all empty and its joined text matches K followed by a
digit 1-6; in that case the question's body is the largest-text cell, its
level is the K match, its CO number comes from the CO-digit search and
its unit from the Unit-digit search of the joined row text. -/
theorem c7_amended (cells : List BankCell) :
    (extract_questions_from_bank [[cells]] ≠ []
      ↔ ((rowTexts cells).all (fun t => decide (t = "")) = false ∧
          bloomSearch (rowJoined cells).data ≠ none)) ∧
    (∀ b : Nat,
      (rowTexts cells).all (fun t => decide (t = "")) = false →
      bloomSearch (rowJoined cells).data = some b →
      extract_questions_from_bank [[cells]]
        = [{ id := 1,
             unit := unitSearch (rowJoined cells).data,
             co := coSearch (rowJoined cells).data,
             bloom := b,
             cell := rowMainCell cells,
             images := (rowMainCell cells).2 }]) := by
  have hflat : extract_questions_from_bank [[cells]] = extractRows [cells] 0 :=
    rfl
  constructor
  · rw [hflat]
    unfold extractRows
    have hnil : extractRows ([] : List (List BankCell)) 0 = [] := rfl
    cases hall : (rowTexts cells).all (fun t => decide (t = "")) with
    | true => simp [hall, hnil]
    | false =>
      simp only [hall, Bool.false_eq_true, if_false]
      cases hb : bloomSearch (rowJoined cells).data with
      | none => simp [hb, hnil]
      | some b => simp [hb, hnil]
  · intro b hall hb
    rw [hflat]
    unfold extractRows
    simp only [hall, Bool.false_eq_true, if_false, hb]
    rfl

/-- C7 amended witness: the amended parsing contract applied to a
concrete two-cell row with a K3 level, a CO2 outcome and a unit 4. -/
theorem c7_witness :
    (((rowTexts bankRowEx).all (fun t => decide (t = "")) = false ∧
        bloomSearch (rowJoined bankRowEx).data = some 3) ∧
      extract_questions_from_bank [[bankRowEx]]
        = [{ id := 1,
             unit := unitSearch (rowJoined bankRowEx).data,
             co := coSearch (rowJoined bankRowEx).data,
             bloom := 3,
             cell := rowMainCell bankRowEx,
             images := (rowMainCell bankRowEx).2 }]) ∧
    (unitSearch (rowJoined bankRowEx).data = some 4 ∧
      coSearch (rowJoined bankRowEx).data = some 2 ∧
      rowMainCell bankRowEx
        = ⟨ "What is computability? CO2 Unit 4", [] ⟩) :=
  ⟨⟨⟨by decide, by decide⟩,
      (c7_amended bankRowEx).2 3 (by decide) (by decide)⟩,
    ⟨by decide, by decide, by decide⟩⟩

end Endsem
